import Mathlib

/-!
Verification development for the apilog-view repository.

This file shallowly embeds the client-side log engine of the repository:

* `src/services/fileService.ts` — NDJSON/CSV parsing and the
  `filterAndPage` filter/sort/page engine (with `matchStatus`);
* `src/services/fileApiService.ts` — the remote-file-listing adapter's
  entry cache (`loadAllEntries`) and `fetchFileApiStats`;
* `src/services/supabaseS3Service.ts` — the object-storage adapter's entry
  cache (`loadS3Entries`) and the p99 computation of
  `fetchSupabaseS3Stats` / `fetchSupabaseStats`;
* `src/hooks/useLogs.ts` — the merge orchestrator's post-settle merging.

Modelling conventions:

* JS strings are Lean `String`s / `List Char`; `toLowerCase`/`toUpperCase`
  are modelled with `Char.toLower`/`Char.toUpper` (faithful on ASCII, which
  is what HTTP methods, URLs and the filter strings of the claims use).
* JS numbers that hold integers (status codes, millisecond durations,
  ticks, `Date.now()`) are modelled as `Int`/`Nat` with exact arithmetic.
  `Math.floor(n * 0.99)` is modelled as `99 * n / 100` and
  `Math.ceil(n * 0.99)` as `(99 * n + 99) / 100`: for every list length
  that can occur the double rounding error of `n * 0.99` (about
  `n * 8.9e-18`) is far below the distance to the nearest other integer
  boundary, so the float and the rational computation agree.
* Platform builtins that the code calls but does not define —
  `JSON.parse` and `new Date(s).getTime()` — are passed in as explicit
  function parameters (`parse`, `getTime`); a function throwing is
  modelled as `Option`.
* `Array.prototype.sort` (in-place, stable per ES2019) is modelled by the
  stable insertion sort `jsSortBy`; the one theorem about in-place
  mutation uses an explicit array store (`ArrStore`).
-/

namespace ApilogView

/-- `s.toLowerCase()` on a JS string, as a character list (ASCII-faithful). -/
def lcStr (s : String) : List Char := s.data.map Char.toLower

/-- `s.toUpperCase()` on a JS string, as a character list (ASCII-faithful). -/
def ucStr (s : String) : List Char := s.data.map Char.toUpper

/-- Scan `str` left to right for the first occurrence of `seg`; on success
return the remainder of `str` after that occurrence.  This is the engine
behind both JS `String.prototype.includes` (occurrence test) and the
unanchored regex test used for the `%` wildcard. -/
def findDrop (seg : List Char) : List Char → Option (List Char)
  | [] => if seg.isPrefixOf ([] : List Char) then some [] else none
  | c :: t =>
    if seg.isPrefixOf (c :: t) then some ((c :: t).drop seg.length)
    else findDrop seg t

/-- JS `hay.includes(needle)`: substring containment. -/
def containsSub (needle hay : List Char) : Bool := (findDrop needle hay).isSome

/-- Split a character list at every occurrence of `delim` (the semantics of
JS `text.split(c)` for a one-character separator). -/
def splitOnChar (delim : Char) : List Char → List (List Char)
  | [] => [[]]
  | c :: t =>
    if c = delim then [] :: splitOnChar delim t
    else
      match splitOnChar delim t with
      | [] => [[c]]
      | s :: rest => (c :: s) :: rest

/-- Split a character list on `'%'` (mirrors what
`filters.url.replace(/%/g, '.*')` does to the shape of the regex: the
non-`%` stretches become the literal segments between the `.*` runs). -/
def splitSegs (cs : List Char) : List (List Char) := splitOnChar '%' cs

/-- Unanchored matching of the segment sequence: each segment must occur in
`str`, in order, without overlap.  `RegExp(p.replace(/%/g,'.*')).test(url)`
with an unanchored pattern succeeds exactly when the literal segments occur
in order (leftmost-greedy scanning, proved complete below). -/
def segsMatch : List (List Char) → List Char → Bool
  | [], _ => true
  | seg :: rest, str =>
    match findDrop seg str with
    | none => false
    | some r => segsMatch rest r

/-- `fileService.ts` lines 146-148: the `%`-wildcard branch of the url
filter.  The regex is built from the raw filter with `%` turned into `.*`,
compiled with the `i` flag, and applied with `pattern.test(e.url)` — an
unanchored search.  Faithful for filters whose non-`%` characters are
regex-literal (no `. ( ) [ ] { } ^ $ | ? * + \\`), which covers every
filter string appearing in the claims. -/
def urlLikeMatches (pat url : String) : Bool :=
  segsMatch (splitSegs (lcStr pat)) (lcStr url)

/-- Characters that JS regex treats specially; `urlLikeMatches` is a
faithful model of the source only for filters avoiding them. -/
def regexSafe (pat : String) : Bool :=
  pat.data.all fun c => !("\\^$.|?*+()[]\x7b\x7d".data.contains c)

/-- Declarative unanchored wildcard semantics: the literal segments occur
in `str` in order, each strictly after the end of the previous one. -/
def SegsOccur : List (List Char) → List Char → Prop
  | [], _ => True
  | seg :: rest, str => ∃ a b, str = a ++ seg ++ b ∧ SegsOccur rest b

/-- Helper of the anchored matcher: `.* s₁ .* s₂ … .* sₖ` anchored at the
end of the string (each segment preceded by an arbitrary gap, the last one
required to end the string). -/
def gapTailMatch : List (List Char) → List Char → Bool
  | [], str => str.isEmpty
  | seg :: rest, str =>
    (List.range (str.length + 1)).any fun i =>
      seg.isPrefixOf (str.drop i) && gapTailMatch rest (str.drop (i + seg.length))

/-- Spec-side definition, following the claim's words: the `%`-pattern
`s₀ % s₁ % … % sₖ` matched as an anchored full-string pattern — the string
must start with `s₀`, end with `sₖ`, and contain the segments in order
with arbitrary runs between them. -/
def segsAnchored : List (List Char) → List Char → Bool
  | [], str => str.isEmpty
  | seg :: rest, str => seg.isPrefixOf str && gapTailMatch rest (str.drop seg.length)

/-- Spec-side definition, following the claim's words: case-insensitive
SQL-LIKE match of the whole url against the `%`-wildcard filter, anchored
as a full-string match. -/
def urlLikeAnchoredSpec (pat url : String) : Bool :=
  segsAnchored (splitSegs (lcStr pat)) (lcStr url)

/-- `parseInt` on a digits-only string. -/
def digitsToNat (cs : List Char) : Nat :=
  cs.foldl (fun n c => 10 * n + (c.toNat - 48)) 0

/-- The `/^\d+$/` test of `matchStatus`. -/
def isDigitStr (s : String) : Bool := !s.data.isEmpty && s.data.all Char.isDigit

/-- `fileService.ts` lines 205-212, `matchStatus(actual, filter)`. -/
def matchStatus (actual : Int) (statusFilter : String) : Bool :=
  if statusFilter = "2xx" then decide (200 ≤ actual ∧ actual < 300)
  else if statusFilter = "3xx" then decide (300 ≤ actual ∧ actual < 400)
  else if statusFilter = "4xx" then decide (400 ≤ actual ∧ actual < 500)
  else if statusFilter = "5xx" then decide (500 ≤ actual ∧ actual < 600)
  else if isDigitStr statusFilter then decide (actual = (digitsToNat statusFilter.data : Int))
  else true

/-- `ApiLogEntry` from `src/types/index.ts`, including the provenance
fields the merge orchestrator adds (`_sourceId` etc., modelled as the
optional `sourceId`/`sourceName`/`sourceColor`). -/
structure ApiLogEntry where
  id : String := ""
  appName : Option String := none
  url : String := ""
  method : String := "GET"
  queryParams : List (String × List String) := []
  requestHeaders : List (String × String) := []
  requestBody : Option String := none
  responseStatus : Int := 0
  responseContentType : Option String := none
  responseBody : Option String := none
  requestTime : String := ""
  responseTime : String := ""
  processingTimeMs : Int := 0
  serverName : Option String := none
  serverPort : Option Int := none
  remoteAddr : Option String := none
  sourceId : Option String := none
  sourceName : Option String := none
  sourceColor : Option String := none
  deriving DecidableEq

/-- The sortable fields (`keyof ApiLogEntry` as used by `sort.field`). -/
inductive SortField where
  | id | appName | url | method | requestTime | responseTime
  | responseStatus | processingTimeMs | serverName | serverPort | remoteAddr
  deriving DecidableEq

inductive SortDirection where
  | asc | desc
  deriving DecidableEq

/-- `SortConfig` from `src/types/index.ts`. -/
structure SortConfig where
  field : SortField
  direction : SortDirection
  deriving DecidableEq

/-- A JS value as seen by the sort comparator: a string, a number, or null. -/
inductive JsVal where
  | vstr : String → JsVal
  | vnum : Int → JsVal
  | vnull : JsVal
  deriving DecidableEq

/-- `(e as any)[sort.field]`. -/
def getSortVal (f : SortField) (e : ApiLogEntry) : JsVal :=
  match f with
  | .id => .vstr e.id
  | .appName => match e.appName with | some s => .vstr s | none => .vnull
  | .url => .vstr e.url
  | .method => .vstr e.method
  | .requestTime => .vstr e.requestTime
  | .responseTime => .vstr e.responseTime
  | .responseStatus => .vnum e.responseStatus
  | .processingTimeMs => .vnum e.processingTimeMs
  | .serverName => match e.serverName with | some s => .vstr s | none => .vnull
  | .serverPort => match e.serverPort with | some n => .vnum n | none => .vnull
  | .remoteAddr => match e.remoteAddr with | some s => .vstr s | none => .vnull

/-- Lexicographic comparison of character lists by code point — the JS
`<` on strings (which compares UTF-16 code units; identical for the
Basic Multilingual Plane characters log data carries). -/
def strLtB : List Char → List Char → Bool
  | _, [] => false
  | [], _ :: _ => true
  | a :: as, b :: bs =>
    if a.toNat < b.toNat then true
    else if b.toNat < a.toNat then false
    else strLtB as bs

/-- JS `a < b` on strings. -/
def jsStrLt (a b : String) : Bool := strLtB a.data b.data

/-- The JS `<` relation on the value shapes the comparator can see:
string/string compares code units, number/number numerically, null with a
number coerces null to 0, and null against a (non-numeric) string goes
through NaN and is false.  (Null against a string of digits would coerce
numerically in JS; no sortable field mixes those shapes.) -/
def jsLt : JsVal → JsVal → Bool
  | .vstr a, .vstr b => jsStrLt a b
  | .vnum a, .vnum b => decide (a < b)
  | .vnull, .vnum b => decide ((0 : Int) < b)
  | .vnum a, .vnull => decide (a < (0 : Int))
  | _, _ => false

/-- The comparator of `fileService.ts` lines 182-190 (also `useLogs.ts`
lines 89-97): `-1`/`1` flipped by the direction, `0` on ties. -/
def sortCmp (sc : SortConfig) (a b : ApiLogEntry) : Int :=
  let av := getSortVal sc.field a
  let bv := getSortVal sc.field b
  if jsLt av bv then (match sc.direction with | .asc => -1 | .desc => 1)
  else if jsLt bv av then (match sc.direction with | .asc => 1 | .desc => -1)
  else 0

/-- Insert `b` (a later element) into the already-sorted `acc`: it goes
before the first element it compares strictly below, after ties — the
placement a stable sort gives later elements. -/
def insSorted (cmp : α → α → Int) (b : α) : List α → List α
  | [] => [b]
  | a :: t => if cmp b a < 0 then b :: a :: t else a :: insSorted cmp b t

/-- `Array.prototype.sort(cmp)` (stable, ES2019) as a stable insertion
sort. -/
def jsSortBy (cmp : α → α → Int) (l : List α) : List α :=
  l.foldl (fun acc x => insSorted cmp x acc) []

/-- `LogFilters` from `src/types/index.ts` (the fields `filterAndPage`
reads; `sourceIds` is not consulted by `filterAndPage` and is omitted). -/
structure LogFilters where
  appName : Option String := none
  url : Option String := none
  method : Option String := none
  statusCode : Option String := none
  startTime : Option String := none
  endTime : Option String := none
  minProcessingTimeMs : Option Int := none
  remoteAddr : Option String := none
  serverName : Option String := none
  deriving DecidableEq

/-- The nine filter steps of `filterAndPage` (`fileService.ts` lines
139-179).  A `string | undefined` filter guards with JS truthiness, so
`undefined` and `""` both skip the step; `minProcessingTimeMs` guards with
`!== undefined` only.  `getTime` stands for `new Date(s).getTime()`. -/
def applyFilters (getTime : String → Int) (filters : LogFilters)
    (entries : List ApiLogEntry) : List ApiLogEntry :=
  let f1 := match filters.appName with
    | some s => if s = "" then entries else entries.filter (fun e => e.appName = some s)
    | none => entries
  let f2 := match filters.url with
    | some u =>
      if u = "" then f1
      else if u.data.contains '%' then f1.filter (fun e => urlLikeMatches u e.url)
      else f1.filter (fun e => containsSub (lcStr u) (lcStr e.url))
    | none => f1
  let f3 := match filters.method with
    | some m => if m = "" then f2 else f2.filter (fun e => ucStr e.method = ucStr m)
    | none => f2
  let f4 := match filters.statusCode with
    | some sc => if sc = "" then f3 else f3.filter (fun e => matchStatus e.responseStatus sc)
    | none => f3
  let f5 := match filters.startTime with
    | some t => if t = "" then f4 else f4.filter (fun e => getTime t ≤ getTime e.requestTime)
    | none => f4
  let f6 := match filters.endTime with
    | some t => if t = "" then f5 else f5.filter (fun e => getTime e.requestTime ≤ getTime t)
    | none => f5
  let f7 := match filters.minProcessingTimeMs with
    | some m => f6.filter (fun e => m ≤ e.processingTimeMs)
    | none => f6
  let f8 := match filters.remoteAddr with
    | some r =>
      if r = "" then f7
      else f7.filter (fun e => match e.remoteAddr with
        | some a => containsSub (lcStr r) (lcStr a)
        | none => false)
    | none => f7
  let f9 := match filters.serverName with
    | some s =>
      if s = "" then f8
      else f8.filter (fun e => match e.serverName with
        | some a => containsSub (lcStr s) (lcStr a)
        | none => false)
    | none => f8
  f9

/-- `PagedResponse<ApiLogEntry>` from `src/types/index.ts`. -/
structure PagedResponse where
  content : List ApiLogEntry := []
  page : Nat := 0
  size : Nat := 0
  totalElements : Nat := 0
  totalPages : Nat := 0
  deriving DecidableEq

/-- `filterAndPage` (`fileService.ts` lines 132-203): filter, copy-and-sort,
then slice `[page*pageSize, page*pageSize + pageSize)`.
`Math.ceil(totalElements / pageSize)` is the exact natural-number ceiling
`(totalElements + pageSize - 1) / pageSize` for every positive `pageSize`
(the claims only constrain positive page sizes; at `pageSize = 0` the JS
code produces `Infinity`/`NaN`, outside this model). -/
def filterAndPage (getTime : String → Int) (entries : List ApiLogEntry)
    (filters : LogFilters) (sort : SortConfig) (page pageSize : Nat) : PagedResponse :=
  let filtered := applyFilters getTime filters entries
  let sorted := jsSortBy (sortCmp sort) filtered
  let totalElements := filtered.length
  let fromIdx := page * pageSize
  { content := (sorted.drop fromIdx).take pageSize
    page := page
    size := pageSize
    totalElements := totalElements
    totalPages := (totalElements + pageSize - 1) / pageSize }

/-! ## NDJSON parser (`fileService.ts` lines 26-39) -/

/-- `String.prototype.trim()` on a character list: strip leading and
trailing whitespace (ASCII whitespace set, which covers the claims'
inputs). -/
def jsTrim (cs : List Char) : List Char :=
  ((cs.dropWhile Char.isWhitespace).reverse.dropWhile Char.isWhitespace).reverse

/-- `parseJsonl(text)`: split on `'\n'`, skip blank lines, try
`JSON.parse` + `normalizeEntry` on each trimmed line, silently dropping
lines where that throws.  The platform `JSON.parse`/`normalizeEntry`
composite is the `parse` parameter; `none` models a thrown exception being
caught by the `try/catch`. -/
def parseJsonl (parse : List Char → Option ApiLogEntry) (text : List Char) : List ApiLogEntry :=
  (splitOnChar '\n' text).foldl
    (fun acc line =>
      let trimmed := jsTrim line
      if trimmed = [] then acc
      else
        match parse trimmed with
        | some e => acc ++ [e]
        | none => acc)
    []

/-! ## CSV row splitter (`fileService.ts` lines 72-95) -/

/-- The character loop of `parseCsvRow`: `inQuotes` is the quote state,
`current` the field accumulated so far (in order).  A `"` while in quotes
followed by another `"` emits one literal `"` and skips it; otherwise `"`
toggles the quote state; `,` outside quotes ends the field; every other
character is appended.  (The source's `ch === '"'` tests appear here as
the quote-headed pattern arms, in the source's priority order.) -/
def csvRowAux : Bool → List Char → List Char → List (List Char)
  | _, current, [] => [current]
  | true, current, '"' :: '"' :: rest2 => csvRowAux true (current ++ ['"']) rest2
  | true, current, '"' :: rest => csvRowAux false current rest
  | false, current, '"' :: rest => csvRowAux true current rest
  | inQuotes, current, c :: rest =>
    if c = ',' ∧ ¬inQuotes then current :: csvRowAux false [] rest
    else csvRowAux inQuotes (current ++ [c]) rest

/-- `parseCsvRow(line)`. -/
def parseCsvRow (line : List Char) : List (List Char) := csvRowAux false [] line

/-- CSV-quote a field the way a writer that the splitter round-trips would:
wrap in `"` and double every embedded `"`. -/
def csvEscape : List Char → List Char
  | [] => []
  | c :: t => if c = '"' then '"' :: '"' :: csvEscape t else c :: csvEscape t

/-- A fully quoted CSV field. -/
def csvQuote (field : List Char) : List Char := '"' :: csvEscape field ++ ['"']

/-- A row of fully quoted CSV fields joined by commas. -/
def csvEncodeRow : List (List Char) → List Char
  | [] => []
  | [f] => csvQuote f
  | f :: fs => csvQuote f ++ ',' :: csvEncodeRow fs

/-! ## p99 computations of the three stats adapters -/

/-- `times.sort((a, b) => a - b)`: numeric ascending sort of the
processing times. -/
def sortTimesAsc (times : List Int) : List Int :=
  jsSortBy (fun a b => a - b) times

/-- `fetchSupabaseS3Stats` (`supabaseS3Service.ts` lines 126-130):
`p99Index = Math.floor(totalCount * 0.99)`;
`p99 = times[Math.min(p99Index, totalCount - 1)] ?? 0`.
(`totalCount - 1` at `totalCount = 0` is `-1` in JS and indexes to
`undefined ?? 0`; the function early-returns on empty input before this
line, and the `Nat` clamp below yields the same `0`.) -/
def fetchSupabaseS3StatsP99 (entries : List ApiLogEntry) : Int :=
  let totalCount := entries.length
  let times := sortTimesAsc (entries.map (·.processingTimeMs))
  let p99Index := 99 * totalCount / 100
  times.getD (min p99Index (totalCount - 1)) 0

/-- `fetchSupabaseStats` (`supabaseS3Service.ts` sibling file, lines
264-268): identical formula, computed over the rows' `processing_time_ms`
values (`?? 0` for null, which the `Int` field already absorbs). -/
def fetchSupabaseStatsP99 (times0 : List Int) : Int :=
  let totalCount := times0.length
  let times := sortTimesAsc times0
  let p99Index := 99 * totalCount / 100
  times.getD (min p99Index (totalCount - 1)) 0

/-- `fetchFileApiStats` (`fileApiService.ts` lines 213-220):
`p99Idx = Math.max(0, Math.ceil(totalCount * 0.99) - 1)`;
`p99 = times[p99Idx] ?? 0`.  `(99 * n + 99) / 100` is the exact natural
ceiling of `0.99 n`, and `Nat` subtraction clamps the `- 1` at `0` exactly
as the `Math.max(0, ·)` does. -/
def fetchFileApiStatsP99 (entries : List ApiLogEntry) : Int :=
  let totalCount := entries.length
  let times := sortTimesAsc (entries.map (·.processingTimeMs))
  let p99Idx := (99 * totalCount + 99) / 100 - 1
  times.getD p99Idx 0

/-- The index formula the claim attributes to every adapter:
`floor(n * 0.99)` clamped to `n - 1`. -/
def claimedP99Index (n : Nat) : Nat := min (99 * n / 100) (n - 1)

/-! ## Entry caches of the two file-backed adapters -/

/-- One slot of `fileCache` (`fileApiService.ts` line 38): the parsed
entries, the `Date.now()` stamp, and the tick they were fetched under. -/
structure FileCacheEntry where
  entries : List ApiLogEntry
  fetchedAt : Int
  tick : Int
  deriving DecidableEq

/-- `CACHE_TTL_MS` (`fileApiService.ts` line 39). -/
def CACHE_TTL_MS : Int := 30000

/-- `b.requestTime.localeCompare(a.requestTime)` (descending), with
`localeCompare` modelled as code-unit string comparison (the sort consumes
only its sign). -/
def fileApiSortCmp (a b : ApiLogEntry) : Int :=
  if jsStrLt b.requestTime a.requestTime then -1
  else if jsStrLt a.requestTime b.requestTime then 1
  else 0

/-- `loadAllEntries` (`fileApiService.ts` lines 171-196) as a state
transformer over its cache slot.  `now` stands for `Date.now()` (read once
in the model; the source reads it twice a few milliseconds apart), and
`fetched` stands for the concatenation of the parsed downloads a reload
would produce.  The returned `Bool` records whether a reload (the
`listFiles` call and downloads) happened. -/
def loadAllEntriesModel (cached : Option FileCacheEntry) (refreshTick now : Int)
    (fetched : List ApiLogEntry) : List ApiLogEntry × FileCacheEntry × Bool :=
  match cached with
  | some c =>
    if c.tick = refreshTick ∧ now - c.fetchedAt < CACHE_TTL_MS then (c.entries, c, false)
    else
      let es := jsSortBy fileApiSortCmp fetched
      (es, ⟨es, now, refreshTick⟩, true)
  | none =>
    let es := jsSortBy fileApiSortCmp fetched
    (es, ⟨es, now, refreshTick⟩, true)

/-- `(a, b) => (a.requestTime < b.requestTime ? 1 : -1)`
(`supabaseS3Service.ts` line 95). -/
def s3SortCmp (a b : ApiLogEntry) : Int :=
  if jsStrLt a.requestTime b.requestTime then 1 else -1

/-- `loadS3Entries` (`supabaseS3Service.ts` lines 48-99) as a state
transformer over its `entryCache` slot for the source.  The slot holds only
an entry list — no fetch time and no tick (`fetchSupabaseS3Logs` is not
even passed the refresh tick by `useLogs.ts`).  Any cached value is
returned as-is; otherwise the listed-and-downloaded `fetched` entries are
sorted and cached.  The returned `Bool` records whether a reload (the
storage `list` call and downloads) happened. -/
def loadS3EntriesModel (cached : Option (List ApiLogEntry))
    (fetched : List ApiLogEntry) : List ApiLogEntry × List ApiLogEntry × Bool :=
  match cached with
  | some es => (es, es, false)
  | none =>
    let es := jsSortBy s3SortCmp fetched
    (es, es, true)

/-! ## Merge orchestrator (`useLogs.ts` lines 45-107) -/

/-- The source fields the orchestrator reads (`id`, `name`, `color`). -/
structure SourceInfo where
  id : String
  name : String
  color : String
  deriving DecidableEq

/-- One element of `perSourceErrors` (`useLogs.ts` line 64). -/
structure SourceError where
  sourceId : String
  sourceName : String
  error : String
  deriving DecidableEq

/-- The merged query result (`useLogs.ts` lines 100-107). -/
structure MergedPage where
  content : List ApiLogEntry
  totalElements : Nat
  totalPages : Nat
  page : Nat
  size : Nat
  perSourceErrors : List SourceError
  deriving DecidableEq

/-- `{...e, _sourceId: src.id, _sourceName: src.name, _sourceColor:
src.color}` (`useLogs.ts` lines 71-76). -/
def tagEntry (src : SourceInfo) (e : ApiLogEntry) : ApiLogEntry :=
  { e with sourceId := some src.id, sourceName := some src.name, sourceColor := some src.color }

/-- The `results.forEach` accumulation (`useLogs.ts` lines 64-86):
concatenate tagged contents and sum `totalElements` over fulfilled
results, push one error record per rejected result.  A settled outcome is
`Except.ok page` (fulfilled) or `Except.error message` (rejected, with the
message `result.reason` carries). -/
def accumulateResults (results : List (SourceInfo × Except String PagedResponse)) :
    List ApiLogEntry × Nat × List SourceError :=
  results.foldl
    (fun acc pr =>
      match pr.2 with
      | .ok r => (acc.1 ++ r.content.map (tagEntry pr.1), acc.2.1 + r.totalElements, acc.2.2)
      | .error msg => (acc.1, acc.2.1, acc.2.2 ++ [⟨pr.1.id, pr.1.name, msg⟩]))
    ([], 0, [])

/-- The merge performed once every per-source `fetchPage` has settled
(`useLogs.ts` lines 60-107): accumulate, re-sort the combined entries with
the requested comparator, and shape the page.  One `(source, outcome)`
pair per dispatched source, in dispatch order, mirrors
`Promise.allSettled` + index-aligned `sources[idx]`.  (The
`sources.length === 0` early return produces the same empty page this
computes on `[]`.) -/
def mergeSettled (sort : SortConfig) (page pageSize : Nat)
    (results : List (SourceInfo × Except String PagedResponse)) : MergedPage :=
  let acc := accumulateResults results
  { content := jsSortBy (sortCmp sort) acc.1
    totalElements := acc.2.1
    totalPages := (acc.2.1 + pageSize - 1) / pageSize
    page := page
    size := pageSize
    perSourceErrors := acc.2.2 }

/-! ## Array-object store: the in-place sort does not touch the input

The only mutating operation in `filterAndPage` is
`[...filtered].sort(...)` (line 182): `Array.prototype.sort` sorts its
receiver in place, but the receiver is the fresh spread copy.  Each
`.filter` call allocates a fresh array that nothing ever mutates, so those
are modelled as plain values; the store tracks the arrays that exist as
objects — the caller's input array and the spread copy the sort mutates. -/

/-- A heap of array objects, addressed by allocation index. -/
structure ArrStore where
  arrs : List (List ApiLogEntry)
  deriving DecidableEq

/-- Read the array object at reference `r`. -/
def readArr (st : ArrStore) (r : Nat) : List ApiLogEntry := st.arrs.getD r []

/-- Allocate a fresh array object holding `xs`. -/
def allocArr (st : ArrStore) (xs : List ApiLogEntry) : Nat × ArrStore :=
  (st.arrs.length, ⟨st.arrs ++ [xs]⟩)

/-- Overwrite the array object at reference `r` in place. -/
def writeArr (st : ArrStore) (r : Nat) (xs : List ApiLogEntry) : ArrStore :=
  ⟨st.arrs.set r xs⟩

/-- `filterAndPage` against the store: the caller's entries live at
`entriesRef`; the spread `[...filtered]` allocates a fresh object, and the
in-place `sort` writes to that fresh object only. -/
def filterAndPageRef (getTime : String → Int) (st : ArrStore) (entriesRef : Nat)
    (filters : LogFilters) (sort : SortConfig) (page pageSize : Nat) :
    PagedResponse × ArrStore :=
  let filtered := applyFilters getTime filters (readArr st entriesRef)
  let spread := allocArr st filtered
  let st2 := writeArr spread.2 spread.1 (jsSortBy (sortCmp sort) (readArr spread.2 spread.1))
  let sorted := readArr st2 spread.1
  let fromIdx := page * pageSize
  ({ content := (sorted.drop fromIdx).take pageSize
     page := page
     size := pageSize
     totalElements := filtered.length
     totalPages := (filtered.length + pageSize - 1) / pageSize }, st2)

/-! ## Concrete fixtures used by the claims' instances -/

/-- Date-parser stub for concrete runs that use no time filters. -/
def zeroTime : String → Int := fun _ => 0

/-- The app's default sort: request time, newest first. -/
def rtDesc : SortConfig := ⟨.requestTime, .desc⟩

/-- Sort by processing time ascending (numeric fixtures). -/
def ptAsc : SortConfig := ⟨.processingTimeMs, .asc⟩

/-- An entry whose only distinguishing field is its processing time. -/
def mkPt (i : Nat) : ApiLogEntry := { processingTimeMs := (i : Int) }

def usersEntry : ApiLogEntry := { id := "u", url := "/api/users" }

def ordersEntry : ApiLogEntry := { id := "o", url := "/api/orders" }

/-- Entries with response statuses 200, 201, 404, 500. -/
def statusEntries : List ApiLogEntry :=
  [{ responseStatus := 200 }, { responseStatus := 201 },
   { responseStatus := 404 }, { responseStatus := 500 }]

/-- 105 entries (pagination boundary fixture). -/
def coll105 : List ApiLogEntry := (List.range 105).map mkPt

/-- 100 entries with processing times 0..99 (p99 divergence fixture). -/
def hundredEntries : List ApiLogEntry := (List.range 100).map mkPt

def cachedEntry : ApiLogEntry := { id := "cached" }

def freshEntry : ApiLogEntry := { id := "fresh" }

def srcOne : SourceInfo := ⟨"s1", "Source One", "red"⟩

def srcTwo : SourceInfo := ⟨"s2", "Source Two", "blue"⟩

/-- The page the succeeding source returns: 10 entries. -/
def okPageTen : PagedResponse :=
  { content := (List.range 10).map mkPt, page := 0, size := 20,
    totalElements := 10, totalPages := 1 }

/-- Two dispatched sources, one rejected with "timeout", one fulfilled
with 10 entries. -/
def mergeScenario : List (SourceInfo × Except String PagedResponse) :=
  [(srcOne, .error "timeout"), (srcTwo, .ok okPageTen)]

def srcA : SourceInfo := ⟨"a", "A", "green"⟩

def srcB : SourceInfo := ⟨"b", "B", "amber"⟩

/-- A full page of 2 entries under pageSize 2. -/
def fullPageTwo : PagedResponse :=
  { content := [mkPt 0, mkPt 1], page := 0, size := 2,
    totalElements := 2, totalPages := 1 }

/-- Two sources that each return a full page of 2 under pageSize 2. -/
def twoFullSources : List (SourceInfo × Except String PagedResponse) :=
  [(srcA, .ok fullPageTwo), (srcB, .ok fullPageTwo)]

/-! ## Correctness of the leftmost-occurrence scan -/

theorem findDrop_of_isPrefixOf (seg str : List Char) (h : seg.isPrefixOf str = true) :
    findDrop seg str = some (str.drop seg.length) := by
  cases str with
  | nil => simp [findDrop, h]
  | cons c t => simp [findDrop, h]

theorem findDrop_sound (seg : List Char) :
    ∀ str r, findDrop seg str = some r → ∃ a, str = a ++ seg ++ r := by
  intro str
  induction str with
  | nil =>
    intro r h
    by_cases hp : seg.isPrefixOf ([] : List Char) = true
    · have hseg : seg = [] := by
        rw [List.isPrefixOf_iff_prefix] at hp
        simpa using hp
      simp [findDrop, hp] at h
      exact ⟨[], by simp [hseg, ← h]⟩
    · simp [findDrop, hp] at h
  | cons c t ih =>
    intro r h
    by_cases hp : seg.isPrefixOf (c :: t) = true
    · rw [findDrop_of_isPrefixOf seg (c :: t) hp] at h
      rw [List.isPrefixOf_iff_prefix] at hp
      obtain ⟨u, hu⟩ := hp
      refine ⟨[], ?_⟩
      have hr : (c :: t).drop seg.length = r := Option.some.inj h
      rw [← hu, List.drop_left] at hr
      simp [← hr, hu]
    · have hstep : findDrop seg (c :: t) = findDrop seg t := by
        simp [findDrop, hp]
      rw [hstep] at h
      obtain ⟨a, ha⟩ := ih r h
      exact ⟨c :: a, by simp [ha]⟩

theorem drop_around (seg B : List Char) :
    ∀ A : List Char, (A ++ seg ++ B).drop (seg.length + A.length) = B := by
  intro A
  induction A with
  | nil => simp [List.drop_left seg B]
  | cons c t ih =>
    show ((c :: (t ++ seg ++ B)).drop (seg.length + (t.length + 1))) = B
    have h1 : seg.length + (t.length + 1) = (seg.length + t.length) + 1 := rfl
    rw [h1, List.drop_succ_cons]
    exact ih

theorem findDrop_complete (seg : List Char) :
    ∀ a b, ∃ r, findDrop seg (a ++ seg ++ b) = some r ∧ b <:+ r := by
  intro a
  induction a with
  | nil =>
    intro b
    have hp : seg.isPrefixOf (seg ++ b) = true := by
      rw [List.isPrefixOf_iff_prefix]; exact ⟨b, rfl⟩
    refine ⟨b, ?_, List.suffix_refl b⟩
    have := findDrop_of_isPrefixOf seg (seg ++ b) hp
    simpa [List.drop_left] using this
  | cons c a' ih =>
    intro b
    by_cases hp : seg.isPrefixOf ((c :: a') ++ seg ++ b) = true
    · refine ⟨((c :: a') ++ seg ++ b).drop seg.length,
        findDrop_of_isPrefixOf seg _ hp, ?_⟩
      have key : (((c :: a') ++ seg ++ b).drop seg.length).drop (c :: a').length = b := by
        rw [List.drop_drop]
        exact drop_around seg b (c :: a')
      have hs := List.drop_suffix (c :: a').length (((c :: a') ++ seg ++ b).drop seg.length)
      rwa [key] at hs
    · have hstep : findDrop seg ((c :: a') ++ seg ++ b) = findDrop seg (a' ++ seg ++ b) := by
        show findDrop seg (c :: (a' ++ seg ++ b)) = findDrop seg (a' ++ seg ++ b)
        simp only [findDrop]
        rw [if_neg]
        exact fun hcon => hp hcon
      rw [hstep]
      exact ih b

theorem segsOccur_of_suffix (segs : List (List Char)) (b r : List Char)
    (hs : b <:+ r) (h : SegsOccur segs b) : SegsOccur segs r := by
  cases segs with
  | nil => trivial
  | cons seg rest =>
    obtain ⟨p, hp⟩ := hs
    simp only [SegsOccur] at h ⊢
    obtain ⟨a, b', hsplit, hrest⟩ := h
    exact ⟨p ++ a, b', by rw [← hp, hsplit]; simp, hrest⟩

/-- The greedy leftmost scan of `segsMatch` decides exactly the
declarative in-order-occurrence semantics. -/
theorem segsMatch_iff (segs : List (List Char)) :
    ∀ str, segsMatch segs str = true ↔ SegsOccur segs str := by
  induction segs with
  | nil => intro str; simp [segsMatch, SegsOccur]
  | cons seg rest ih =>
    intro str
    constructor
    · intro h
      simp only [segsMatch] at h
      cases hfd : findDrop seg str with
      | none => rw [hfd] at h; simp at h
      | some r =>
        rw [hfd] at h
        obtain ⟨a, ha⟩ := findDrop_sound seg str r hfd
        exact ⟨a, r, ha, (ih r).mp h⟩
    · intro h
      simp only [SegsOccur] at h
      obtain ⟨a, b, hsplit, hocc⟩ := h
      obtain ⟨r, hfd, hsuf⟩ := findDrop_complete seg a b
      simp only [segsMatch, hsplit, hfd]
      exact (ih r).mpr (segsOccur_of_suffix rest b r hsuf hocc)

/-- `containsSub` is substring containment. -/
theorem containsSub_iff (needle hay : List Char) :
    containsSub needle hay = true ↔ ∃ a b, hay = a ++ needle ++ b := by
  unfold containsSub
  constructor
  · intro h
    cases hfd : findDrop needle hay with
    | none => rw [hfd] at h; simp at h
    | some r =>
      obtain ⟨a, ha⟩ := findDrop_sound needle hay r hfd
      exact ⟨a, r, ha⟩
  · rintro ⟨a, b, rfl⟩
    obtain ⟨r, hfd, _⟩ := findDrop_complete needle a b
    rw [hfd]
    rfl

/-! ## NDJSON loop characterization -/

theorem parseJsonl_foldl (parse : List Char → Option ApiLogEntry) :
    ∀ (lines : List (List Char)) (acc : List ApiLogEntry),
      lines.foldl (fun acc line =>
          let trimmed := jsTrim line
          if trimmed = [] then acc
          else
            match parse trimmed with
            | some e => acc ++ [e]
            | none => acc) acc
        = acc ++ lines.filterMap (fun line =>
            if jsTrim line = [] then none else parse (jsTrim line)) := by
  intro lines
  induction lines with
  | nil => intro acc; simp
  | cons l t ih =>
    intro acc
    simp only [List.foldl_cons, List.filterMap_cons]
    by_cases h : jsTrim l = []
    · simp [h, ih]
    · cases hp : parse (jsTrim l) with
      | none => simp [h, hp, ih]
      | some e => simp [h, hp, ih]

theorem filterMap_trim_filter (parse : List Char → Option ApiLogEntry) :
    ∀ lines : List (List Char),
      lines.filterMap (fun line =>
          if jsTrim line = [] then none else parse (jsTrim line))
        = ((lines.map jsTrim).filter (fun l => l ≠ [])).filterMap parse := by
  intro lines
  induction lines with
  | nil => rfl
  | cons l t ih =>
    by_cases h : jsTrim l = []
    · simp [List.filterMap_cons, h, ih]
    · cases hp : parse (jsTrim l) <;> simp [List.filterMap_cons, h, hp, ih]

/-! ## Sorting preserves length -/

theorem insSorted_length (cmp : α → α → Int) (b : α) :
    ∀ l : List α, (insSorted cmp b l).length = l.length + 1 := by
  intro l
  induction l with
  | nil => rfl
  | cons a t ih =>
    simp only [insSorted]
    by_cases h : cmp b a < 0
    · simp [h]
    · simp [h, ih]

theorem jsSortBy_length (cmp : α → α → Int) (l : List α) :
    (jsSortBy cmp l).length = l.length := by
  have key : ∀ (l acc : List α),
      (l.foldl (fun acc x => insSorted cmp x acc) acc).length = acc.length + l.length := by
    intro l
    induction l with
    | nil => intro acc; simp
    | cons x t ih =>
      intro acc
      simp only [List.foldl_cons]
      rw [ih, insSorted_length, List.length_cons]
      omega
  simpa [jsSortBy] using key l []

/-! ## Declarative shapes of the merge accumulation -/

/-- Concatenation of the fulfilled sources' tagged contents, in order. -/
def okContents (results : List (SourceInfo × Except String PagedResponse)) :
    List ApiLogEntry :=
  results.foldr (fun pr acc =>
    match pr.2 with
    | .ok r => r.content.map (tagEntry pr.1) ++ acc
    | .error _ => acc) []

/-- Sum of the fulfilled sources' reported `totalElements`. -/
def okTotals (results : List (SourceInfo × Except String PagedResponse)) : Nat :=
  (results.map (fun pr =>
    match pr.2 with
    | .ok r => r.totalElements
    | .error _ => 0)).sum

/-- One error record per rejected source, in order. -/
def errRecords (results : List (SourceInfo × Except String PagedResponse)) :
    List SourceError :=
  results.filterMap (fun pr =>
    match pr.2 with
    | .ok _ => none
    | .error msg => some ⟨pr.1.id, pr.1.name, msg⟩)

theorem accumulateResults_spec (results : List (SourceInfo × Except String PagedResponse)) :
    accumulateResults results = (okContents results, okTotals results, errRecords results) := by
  have key : ∀ (rs : List (SourceInfo × Except String PagedResponse))
      (acc : List ApiLogEntry × Nat × List SourceError),
      rs.foldl (fun acc pr =>
          match pr.2 with
          | .ok r => (acc.1 ++ r.content.map (tagEntry pr.1), acc.2.1 + r.totalElements, acc.2.2)
          | .error msg => (acc.1, acc.2.1, acc.2.2 ++ [⟨pr.1.id, pr.1.name, msg⟩])) acc
        = (acc.1 ++ okContents rs, acc.2.1 + okTotals rs, acc.2.2 ++ errRecords rs) := by
    intro rs
    induction rs with
    | nil => intro acc; simp [okContents, okTotals, errRecords]
    | cons pr t ih =>
      intro acc
      obtain ⟨src, res⟩ := pr
      cases res with
      | ok r =>
        simp only [List.foldl_cons]
        rw [ih]
        simp [okContents, okTotals, errRecords]
        omega
      | error msg =>
        simp only [List.foldl_cons]
        rw [ih]
        simp [okContents, okTotals, errRecords]
  simpa [accumulateResults] using key results ([], 0, [])

theorem okContents_length (results : List (SourceInfo × Except String PagedResponse)) :
    (okContents results).length
      = (results.map (fun pr =>
          match pr.2 with
          | .ok r => r.content.length
          | .error _ => 0)).sum := by
  induction results with
  | nil => rfl
  | cons pr t ih =>
    obtain ⟨src, res⟩ := pr
    cases res with
    | ok r =>
      show (r.content.map (tagEntry src) ++ okContents t).length = _
      simp only [List.length_append, List.map_cons, List.sum_cons, List.length_map]
      rw [ih]
    | error msg =>
      show (okContents t).length = _
      simp only [List.map_cons, List.sum_cons]
      rw [ih]
      omega

/-! ## Array-store helper lemmas -/

theorem set_append_len (l : List (List ApiLogEntry)) (x v : List ApiLogEntry) :
    (l ++ [x]).set l.length v = l ++ [v] := by
  induction l with
  | nil => rfl
  | cons a t ih => simp [List.set, ih]

theorem getD_append_len (l : List (List ApiLogEntry)) (v : List ApiLogEntry) :
    (l ++ [v]).getD l.length [] = v := by
  induction l with
  | nil => rfl
  | cons a t ih => simp [ih]

theorem getD_append_lt (l : List (List ApiLogEntry)) (x : List ApiLogEntry) :
    ∀ i, i < l.length → (l ++ [x]).getD i [] = l.getD i [] := by
  induction l with
  | nil =>
    intro i h
    simp at h
  | cons a t ih =>
    intro i h
    cases i with
    | zero => rfl
    | succ n =>
      have hn : n < t.length := by simpa using h
      simpa using ih n hn

/-! ## The two p99 index formulas -/

theorem p99Index_eq_of_not_dvd (n : Nat) (h : ¬ 100 ∣ n) :
    (99 * n + 99) / 100 - 1 = min (99 * n / 100) (n - 1) := by
  have h' : n % 100 ≠ 0 := fun hc => h (Nat.dvd_of_mod_eq_zero hc)
  obtain ⟨q, s, rfl, hs1, hs2⟩ : ∃ q s, n = 100 * q + s ∧ 1 ≤ s ∧ s ≤ 99 :=
    ⟨n / 100, n % 100, by omega, by omega, by omega⟩
  have hd : 99 * (100 * q + s) / 100 = 99 * q + (s - 1) := by
    have h2 : 99 * (100 * q + s) = 100 * (99 * q + (s - 1)) + (100 - s) := by omega
    rw [h2, Nat.mul_add_div (by norm_num)]
    have h3 : (100 - s) / 100 = 0 := Nat.div_eq_of_lt (by omega)
    omega
  have he : (99 * (100 * q + s) + 99) / 100 = 99 * q + s := by
    have h2 : 99 * (100 * q + s) + 99 = 100 * (99 * q + (s - 1)) + (199 - s) := by omega
    rw [h2, Nat.mul_add_div (by norm_num)]
    have h3 : (199 - s) / 100 = 1 := by
      have hle : 100 ≤ 199 - s := by omega
      have hlt : 199 - s < 200 := by omega
      omega
    omega
  omega

/-! ## CSV round-trip -/

theorem csvRowAux_nil (b : Bool) (cur : List Char) : csvRowAux b cur [] = [cur] := by
  cases b <;> rfl

theorem csvRowAux_openQuote (cur X : List Char) :
    csvRowAux false cur ('"' :: X) = csvRowAux true cur X := rfl

theorem csvRowAux_escQuote (cur X : List Char) :
    csvRowAux true cur ('"' :: '"' :: X) = csvRowAux true (cur ++ ['"']) X := rfl

theorem csvRowAux_closeQuote (cur : List Char) (d : Char) (X : List Char) (hd : d ≠ '"') :
    csvRowAux true cur ('"' :: d :: X) = csvRowAux false cur (d :: X) := by
  simp [csvRowAux, hd]

theorem csvRowAux_closeQuoteEnd (cur : List Char) :
    csvRowAux true cur ['"'] = [cur] := rfl

theorem csvRowAux_comma (cur X : List Char) :
    csvRowAux false cur (',' :: X) = cur :: csvRowAux false [] X := by
  simp [csvRowAux]

theorem csvRowAux_inQuotesChar (cur : List Char) (a : Char) (X : List Char) (ha : a ≠ '"') :
    csvRowAux true cur (a :: X) = csvRowAux true (cur ++ [a]) X := by
  simp [csvRowAux, ha]

theorem csvRowAux_quoted (s : List Char) :
    ∀ (cur rest : List Char), rest.head? ≠ some '"' →
      csvRowAux true cur (csvEscape s ++ '"' :: rest) = csvRowAux false (cur ++ s) rest := by
  induction s with
  | nil =>
    intro cur rest h
    show csvRowAux true cur ('"' :: rest) = csvRowAux false (cur ++ []) rest
    cases rest with
    | nil => simp [csvRowAux_closeQuoteEnd, csvRowAux_nil]
    | cons d r2 =>
      have hd : d ≠ '"' := fun hc => h (by simp [hc])
      simpa using csvRowAux_closeQuote cur d r2 hd
  | cons a t ih =>
    intro cur rest h
    by_cases ha : a = '"'
    · subst ha
      have he : csvEscape ('"' :: t) ++ '"' :: rest
          = '"' :: '"' :: (csvEscape t ++ '"' :: rest) := by
        simp [csvEscape]
      rw [he, csvRowAux_escQuote, ih (cur ++ ['"']) rest h]
      simp
    · have he : csvEscape (a :: t) ++ '"' :: rest
          = a :: (csvEscape t ++ '"' :: rest) := by
        simp [csvEscape, ha]
      rw [he, csvRowAux_inQuotesChar cur a _ ha, ih (cur ++ [a]) rest h]
      simp

theorem parseCsvRow_encodeRow :
    ∀ fields : List (List Char), fields ≠ [] →
      parseCsvRow (csvEncodeRow fields) = fields := by
  intro fields
  induction fields with
  | nil => intro h; exact absurd rfl h
  | cons f fs ih =>
    intro _
    cases fs with
    | nil =>
      show csvRowAux false [] (csvEncodeRow [f]) = [f]
      have h1 : csvEncodeRow [f] = '"' :: (csvEscape f ++ '"' :: []) := by
        simp [csvEncodeRow, csvQuote]
      rw [h1, csvRowAux_openQuote, csvRowAux_quoted f [] [] (by simp), csvRowAux_nil]
      simp
    | cons f2 fs2 =>
      show csvRowAux false [] (csvEncodeRow (f :: f2 :: fs2)) = f :: f2 :: fs2
      have h1 : csvEncodeRow (f :: f2 :: fs2)
          = '"' :: (csvEscape f ++ '"' :: (',' :: csvEncodeRow (f2 :: fs2))) := by
        simp [csvEncodeRow, csvQuote]
      rw [h1, csvRowAux_openQuote, csvRowAux_quoted f [] _ (by simp), List.nil_append,
        csvRowAux_comma]
      have ih' : csvRowAux false [] (csvEncodeRow (f2 :: fs2)) = f2 :: fs2 := ih (by simp)
      rw [ih']

/-! ## Claim theorems -/

/-- C1, counterexample: the claim says the `%`-wildcard pattern is
"anchored as a full-string match".  It is not: `fileService.ts` line 148
applies `pattern.test(e.url)` with no `^`/`$` anchors, an unanchored
search.  Concretely, filter `"pi%"` (which as an anchored full-string
pattern matches only urls starting with `pi`) keeps the entry with url
`"/api/users"`, while the anchored spec-side matcher rejects it. -/
theorem C1_counterexample :
    (filterAndPage zeroTime [usersEntry] { url := some "pi%" } rtDesc 0 20).content
        = [usersEntry]
      ∧ urlLikeAnchoredSpec "pi%" "/api/users" = false := by
  constructor
  · decide
  · decide

/-- C1, amended: if the url filter contains `%`, it is treated as a
case-insensitive wildcard pattern where `%` matches any run of characters,
tested UNANCHORED against the entry's url (it matches iff the `%`-split
literal segments occur in the url in order); if it contains no `%`, an
entry matches iff its url contains the filter as a case-insensitive
substring.  The claim's concrete examples hold: over `/api/users` and
`/api/orders`, filter `%orders` matches only `/api/orders` and filter
`/api/%` matches both. -/
theorem C1_url_filter_semantics :
    (∀ pat url : String, pat.data.contains '%' = true →
        (urlLikeMatches pat url = true ↔ SegsOccur (splitSegs (lcStr pat)) (lcStr url)))
  ∧ (∀ pat url : String,
        containsSub (lcStr pat) (lcStr url) = true ↔
          ∃ a b, lcStr url = a ++ lcStr pat ++ b)
  ∧ (filterAndPage zeroTime [usersEntry, ordersEntry] { url := some "%orders" } rtDesc 0 20).content
      = [ordersEntry]
  ∧ (filterAndPage zeroTime [usersEntry, ordersEntry] { url := some "/api/%" } rtDesc 0 20).content
      = [usersEntry, ordersEntry] := by
  refine ⟨?_, ?_, by decide, by decide⟩
  · intro pat url _
    exact segsMatch_iff (splitSegs (lcStr pat)) (lcStr url)
  · intro pat url
    exact containsSub_iff (lcStr pat) (lcStr url)

/-- C1 witness: the wildcard characterization applied at filter `%orders`
and url `/api/orders`. -/
theorem C1_url_filter_semantics_witness :
    SegsOccur (splitSegs (lcStr "%orders")) (lcStr "/api/orders") :=
  (C1_url_filter_semantics.1 "%orders" "/api/orders" (by decide)).mp (by decide)

/-- C2, counterexample: the object-storage adapter's cache
(`supabaseS3Service.ts` lines 48-50) stores no tick and no fetch time and
serves any cached collection unconditionally — here the cached collection
is returned with no reload even though it differs from what a reload
would produce, regardless of any elapsed time or requested tick (the
loader is not even passed them). -/
theorem C2_counterexample :
    loadS3EntriesModel (some [cachedEntry]) [freshEntry]
        = ([cachedEntry], [cachedEntry], false)
      ∧ [cachedEntry] ≠ jsSortBy s3SortCmp [freshEntry] := by
  constructor
  · rfl
  · decide

/-- C2, amended: the remote-file-listing adapter serves its cache iff the
cached tick equals the requested tick AND the age is under the 30 s TTL,
reloading on any mismatch; the object-storage adapter instead serves any
cached collection unconditionally (its cache slot holds no tick or fetch
time) and reloads only when the slot is empty, i.e. after explicit
invalidation. -/
theorem C2_cache_policies :
    (∀ (cached : Option FileCacheEntry) (refreshTick now : Int) (fetched : List ApiLogEntry),
        (loadAllEntriesModel cached refreshTick now fetched).2.2 = false ↔
          ∃ c, cached = some c ∧ c.tick = refreshTick ∧ now - c.fetchedAt < CACHE_TTL_MS)
  ∧ (∀ (c : FileCacheEntry) (refreshTick now : Int) (fetched : List ApiLogEntry),
        (c.tick ≠ refreshTick ∨ CACHE_TTL_MS ≤ now - c.fetchedAt) →
          loadAllEntriesModel (some c) refreshTick now fetched
            = (jsSortBy fileApiSortCmp fetched,
               ⟨jsSortBy fileApiSortCmp fetched, now, refreshTick⟩, true))
  ∧ (∀ (cached : Option (List ApiLogEntry)) (fetched : List ApiLogEntry),
        (loadS3EntriesModel cached fetched).2.2 = false ↔ cached.isSome = true)
  ∧ (∀ es fetched : List ApiLogEntry, loadS3EntriesModel (some es) fetched = (es, es, false)) := by
  refine ⟨?_, ?_, ?_, ?_⟩
  · intro cached refreshTick now fetched
    cases cached with
    | none => simp [loadAllEntriesModel]
    | some c =>
      by_cases h : c.tick = refreshTick ∧ now - c.fetchedAt < CACHE_TTL_MS
      · have hred : loadAllEntriesModel (some c) refreshTick now fetched
            = (c.entries, c, false) := by
          simp only [loadAllEntriesModel, if_pos h]
        rw [hred]
        exact iff_of_true rfl ⟨c, rfl, h.1, h.2⟩
      · have hred : loadAllEntriesModel (some c) refreshTick now fetched
            = (jsSortBy fileApiSortCmp fetched,
               ⟨jsSortBy fileApiSortCmp fetched, now, refreshTick⟩, true) := by
          simp only [loadAllEntriesModel, if_neg h]
        rw [hred]
        refine iff_of_false (by simp) ?_
        rintro ⟨c', hc', h1, h2⟩
        cases Option.some.inj hc'
        exact h ⟨h1, h2⟩
  · intro c refreshTick now fetched h
    have hneg : ¬(c.tick = refreshTick ∧ now - c.fetchedAt < CACHE_TTL_MS) := by
      rintro ⟨h1, h2⟩
      rcases h with h | h
      · exact h h1
      · omega
    simp only [loadAllEntriesModel, if_neg hneg]
  · intro cached fetched
    cases cached <;> simp [loadS3EntriesModel]
  · intro es fetched
    rfl

/-- C2 witness: a cached record with tick 0 queried under tick 1 is
reloaded by the remote-file-listing adapter. -/
theorem C2_cache_policies_witness :
    loadAllEntriesModel (some ⟨[], 0, 0⟩) 1 0 []
      = (jsSortBy fileApiSortCmp [], ⟨jsSortBy fileApiSortCmp [], 0, 1⟩, true) :=
  C2_cache_policies.2.1 ⟨[], 0, 0⟩ 1 0 [] (Or.inl (by decide))

/-- C3, counterexample: on 100 entries with processing times 0..99 the
remote-file-listing adapter (`ceil(n*0.99) - 1`) reports 98 while both
supabase adapters (`floor(n*0.99)` clamped) report 99 — the three
implementations do not all follow the claimed floor formula. -/
theorem C3_counterexample :
    fetchFileApiStatsP99 hundredEntries = 98
      ∧ fetchSupabaseS3StatsP99 hundredEntries = 99
      ∧ fetchSupabaseStatsP99 (hundredEntries.map (·.processingTimeMs)) = 99 := by
  refine ⟨by decide, by decide, by decide⟩

/-- C3, amended: the object-storage and database-style adapters both use
index `floor(n*0.99)` clamped to `n-1` over the ascending-sorted times
(the claim's formula) and therefore always agree; the remote-file-listing
adapter uses `max(0, ceil(n*0.99) - 1)`, which agrees with the other two
exactly when the collection size is not a positive multiple of 100. -/
theorem C3_p99_formulas :
    (∀ times : List Int,
        fetchSupabaseStatsP99 times
          = (sortTimesAsc times).getD (claimedP99Index times.length) 0)
  ∧ (∀ entries : List ApiLogEntry,
        fetchSupabaseS3StatsP99 entries
          = fetchSupabaseStatsP99 (entries.map (·.processingTimeMs)))
  ∧ (∀ entries : List ApiLogEntry, ¬ (100 ∣ entries.length) →
        fetchFileApiStatsP99 entries = fetchSupabaseS3StatsP99 entries) := by
  refine ⟨fun times => rfl, ?_, ?_⟩
  · intro entries
    simp [fetchSupabaseS3StatsP99, fetchSupabaseStatsP99]
  · intro entries h
    have hidx := p99Index_eq_of_not_dvd entries.length h
    simp only [fetchFileApiStatsP99, fetchSupabaseS3StatsP99]
    rw [hidx]

/-- C3 witness: on a 1-element collection the two formulas agree. -/
theorem C3_p99_formulas_witness :
    fetchFileApiStatsP99 [mkPt 5] = fetchSupabaseS3StatsP99 [mkPt 5] :=
  C3_p99_formulas.2.2 [mkPt 5] (by decide)

/-- C4: `matchStatus` matches the class tokens `2xx`..`5xx` by hundreds
range, an all-digits filter by exact numeric equality, and anything else
matches every entry; concretely, over statuses `[200, 201, 404, 500]`,
filter `4xx` keeps exactly the 404 entry and `2xx` exactly the 200 and 201
entries. -/
theorem C4_status_filter :
    (∀ (a : Int) (f : String),
        matchStatus a f = true ↔
          ((f = "2xx" ∧ 200 ≤ a ∧ a < 300) ∨
           (f = "3xx" ∧ 300 ≤ a ∧ a < 400) ∨
           (f = "4xx" ∧ 400 ≤ a ∧ a < 500) ∨
           (f = "5xx" ∧ 500 ≤ a ∧ a < 600) ∨
           (f ≠ "2xx" ∧ f ≠ "3xx" ∧ f ≠ "4xx" ∧ f ≠ "5xx" ∧ isDigitStr f = true ∧
             a = (digitsToNat f.data : Int)) ∨
           (f ≠ "2xx" ∧ f ≠ "3xx" ∧ f ≠ "4xx" ∧ f ≠ "5xx" ∧ isDigitStr f = false)))
  ∧ (filterAndPage zeroTime statusEntries { statusCode := some "4xx" } rtDesc 0 20).content
      = [{ responseStatus := 404 }]
  ∧ (filterAndPage zeroTime statusEntries { statusCode := some "2xx" } rtDesc 0 20).content
      = [{ responseStatus := 200 }, { responseStatus := 201 }] := by
  refine ⟨?_, by decide, by decide⟩
  intro a f
  unfold matchStatus
  split_ifs with h1 h2 h3 h4 h5 <;> simp_all

/-- C5: `filterAndPage` reports the filtered count as `totalElements`,
returns the slice `[page*pageSize, page*pageSize + pageSize)` of the
filtered-and-sorted list (clamped), and reports the exact ceiling
`⌈totalElements / pageSize⌉` as `totalPages` (pinned here by the two
inequalities that characterize the ceiling for positive `pageSize`);
concretely 105 entries with pageSize 50 give totalPages 3 and page 2
contains exactly 5 entries. -/
theorem C5_paging :
    (∀ (getTime : String → Int) (entries : List ApiLogEntry) (filters : LogFilters)
        (sort : SortConfig) (page pageSize : Nat), 0 < pageSize →
        (filterAndPage getTime entries filters sort page pageSize).totalElements
            = (applyFilters getTime filters entries).length
          ∧ (filterAndPage getTime entries filters sort page pageSize).content
            = ((jsSortBy (sortCmp sort) (applyFilters getTime filters entries)).drop
                (page * pageSize)).take pageSize
          ∧ (filterAndPage getTime entries filters sort page pageSize).totalElements
              ≤ (filterAndPage getTime entries filters sort page pageSize).totalPages * pageSize
          ∧ (filterAndPage getTime entries filters sort page pageSize).totalPages * pageSize
              < (filterAndPage getTime entries filters sort page pageSize).totalElements + pageSize)
  ∧ (filterAndPage zeroTime coll105 {} ptAsc 2 50).totalPages = 3
  ∧ (filterAndPage zeroTime coll105 {} ptAsc 2 50).content.length = 5
  ∧ (filterAndPage zeroTime coll105 {} ptAsc 2 50).totalElements = 105 := by
  refine ⟨?_, by decide, by decide, by decide⟩
  intro getTime entries filters sort page pageSize hps
  have hTE : (filterAndPage getTime entries filters sort page pageSize).totalElements
      = (applyFilters getTime filters entries).length := rfl
  have hTP : (filterAndPage getTime entries filters sort page pageSize).totalPages
      = ((applyFilters getTime filters entries).length + pageSize - 1) / pageSize := rfl
  refine ⟨hTE, rfl, ?_, ?_⟩
  · rw [hTE, hTP]
    have hdm := Nat.div_add_mod
      ((applyFilters getTime filters entries).length + pageSize - 1) pageSize
    rw [Nat.mul_comm] at hdm
    have hmod := Nat.mod_lt
      ((applyFilters getTime filters entries).length + pageSize - 1) hps
    omega
  · rw [hTE, hTP]
    have hle := Nat.div_mul_le_self
      ((applyFilters getTime filters entries).length + pageSize - 1) pageSize
    omega

/-- C5 witness: the paging characterization at the empty collection,
page 0, pageSize 1. -/
theorem C5_paging_witness :
    (filterAndPage zeroTime [] {} ptAsc 0 1).totalElements
        = (applyFilters zeroTime {} []).length
      ∧ (filterAndPage zeroTime [] {} ptAsc 0 1).content
        = ((jsSortBy (sortCmp ptAsc) (applyFilters zeroTime {} [])).drop (0 * 1)).take 1
      ∧ (filterAndPage zeroTime [] {} ptAsc 0 1).totalElements
          ≤ (filterAndPage zeroTime [] {} ptAsc 0 1).totalPages * 1
      ∧ (filterAndPage zeroTime [] {} ptAsc 0 1).totalPages * 1
          < (filterAndPage zeroTime [] {} ptAsc 0 1).totalElements + 1 :=
  C5_paging.1 zeroTime [] {} ptAsc 0 1 (by decide)

/-- C6: the NDJSON parser splits on newlines, trims each line, skips
blank lines, parses each remaining line independently, and silently drops
lines whose parse throws (the `parse` oracle models `JSON.parse` +
normalization, `none` modelling a thrown exception); it equals the
declarative split-trim-filter-filterMap pipeline, and a 3-line input whose
second line fails to parse yields exactly the two entries of the good
lines — no failure escapes. -/
theorem C6_ndjson :
    (∀ (parse : List Char → Option ApiLogEntry) (text : List Char),
        parseJsonl parse text
          = (((splitOnChar '\n' text).map jsTrim).filter (fun l => l ≠ [])).filterMap parse)
  ∧ (∀ (parse : List Char → Option ApiLogEntry) (e1 e3 : ApiLogEntry),
        parse "a".data = some e1 → parse "b".data = none → parse "c".data = some e3 →
          parseJsonl parse "a\nb\nc".data = [e1, e3]) := by
  constructor
  · intro parse text
    unfold parseJsonl
    rw [parseJsonl_foldl, filterMap_trim_filter]
    simp
  · intro parse e1 e3 h1 h2 h3
    have hsplit : splitOnChar '\n' "a\nb\nc".data = [['a'], ['b'], ['c']] := by decide
    have hta : jsTrim ['a'] = ['a'] := by decide
    have htb : jsTrim ['b'] = ['b'] := by decide
    have htc : jsTrim ['c'] = ['c'] := by decide
    have ha : "a".data = ['a'] := rfl
    have hb : "b".data = ['b'] := rfl
    have hc : "c".data = ['c'] := rfl
    rw [ha] at h1
    rw [hb] at h2
    rw [hc] at h3
    unfold parseJsonl
    rw [parseJsonl_foldl, hsplit]
    simp [hta, htb, htc, h1, h2, h3]

/-- C6 witness: the 3-line scenario at a concrete parse oracle. -/
theorem C6_ndjson_witness :
    parseJsonl
      (fun l => if l = ['a'] then some { id := "A" }
                else if l = ['c'] then some { id := "C" } else none)
      "a\nb\nc".data = [{ id := "A" }, { id := "C" }] :=
  C6_ndjson.2 _ { id := "A" } { id := "C" } (by decide) (by decide) (by decide)

/-- C7, counterexample: the CSV field `"a,""b"""` parses to the literal
string `a,"b"` (with a trailing quote), not to `a,"b` as the claim
states. -/
theorem C7_counterexample :
    parseCsvRow "\"a,\"\"b\"\"\"".data = ["a,\"b\"".data]
      ∧ parseCsvRow "\"a,\"\"b\"\"\"".data ≠ ["a,\"b".data] := by
  constructor
  · decide
  · decide

/-- C7, amended: the CSV row splitter handles quoted fields containing
commas and doubled-quote escaping — every row of quoted fields (commas and
doubled `""` included) round-trips exactly — and the claim's concrete
field `"a,""b"""` parses to the literal string `a,"b"`. -/
theorem C7_csv_quoting :
    (∀ fields : List (List Char), fields ≠ [] →
        parseCsvRow (csvEncodeRow fields) = fields)
  ∧ parseCsvRow "\"a,\"\"b\"\"\"".data = ["a,\"b\"".data] :=
  ⟨parseCsvRow_encodeRow, by decide⟩

/-- C7 witness: a two-field row with an embedded comma and quote
round-trips. -/
theorem C7_csv_quoting_witness :
    parseCsvRow (csvEncodeRow ["a,\"b".data, "c".data]) = ["a,\"b".data, "c".data] :=
  C7_csv_quoting.1 ["a,\"b".data, "c".data] (by decide)

/-- C8: after all per-source fetches settle, each fulfilled source's
entries are tagged with its id/name/color and concatenated (then
re-sorted) into the merged content with its `totalElements` added to the
grand total, while each rejected source contributes exactly one
`{sourceId, sourceName, error}` record to `perSourceErrors` instead of
the query throwing; with one failed and one succeeding source of 10
entries the merged page has 10 entries, one error record carrying the
failed source's id and name, and grand total 10. -/
theorem C8_merge_partition :
    (∀ (sort : SortConfig) (page pageSize : Nat)
        (results : List (SourceInfo × Except String PagedResponse)),
        (mergeSettled sort page pageSize results).perSourceErrors = errRecords results
          ∧ (mergeSettled sort page pageSize results).content
            = jsSortBy (sortCmp sort) (okContents results)
          ∧ (mergeSettled sort page pageSize results).totalElements = okTotals results)
  ∧ (mergeSettled rtDesc 0 20 mergeScenario).content.length = 10
  ∧ (mergeSettled rtDesc 0 20 mergeScenario).perSourceErrors
      = [⟨"s1", "Source One", "timeout"⟩]
  ∧ (mergeSettled rtDesc 0 20 mergeScenario).totalElements = 10 := by
  refine ⟨?_, by decide, by decide, by decide⟩
  intro sort page pageSize results
  have hacc := accumulateResults_spec results
  refine ⟨?_, ?_, ?_⟩ <;> simp [mergeSettled, hacc]

/-- C9: `filterAndPage` is deterministic, and the store-level model shows
the input array (and every other pre-existing array object) is untouched:
the only in-place operation, the sort, is applied to the fresh spread
copy.  The reference model also returns exactly the pure function's
result. -/
theorem C9_pure_no_mutation :
    ∀ (getTime : String → Int) (st : ArrStore) (entriesRef : Nat) (filters : LogFilters)
      (sort : SortConfig) (page pageSize : Nat),
      (filterAndPageRef getTime st entriesRef filters sort page pageSize).1
          = filterAndPage getTime (readArr st entriesRef) filters sort page pageSize
        ∧ (∀ i, i < st.arrs.length →
            readArr (filterAndPageRef getTime st entriesRef filters sort page pageSize).2 i
              = readArr st i)
        ∧ filterAndPage getTime (readArr st entriesRef) filters sort page pageSize
            = filterAndPage getTime (readArr st entriesRef) filters sort page pageSize := by
  intro getTime st entriesRef filters sort page pageSize
  have hstore : filterAndPageRef getTime st entriesRef filters sort page pageSize
      = (filterAndPage getTime (readArr st entriesRef) filters sort page pageSize,
         ⟨st.arrs ++ [jsSortBy (sortCmp sort)
            (applyFilters getTime filters (readArr st entriesRef))]⟩) := by
    simp only [filterAndPageRef, filterAndPage, allocArr, writeArr, readArr]
    rw [getD_append_len, set_append_len, getD_append_len]
  refine ⟨by rw [hstore], ?_, rfl⟩
  intro i hi
  rw [hstore]
  show (st.arrs ++ [_]).getD i [] = readArr st i
  exact getD_append_lt st.arrs _ i hi

/-- C9 witness: a one-array store is unchanged at index 0. -/
theorem C9_pure_no_mutation_witness :
    readArr (filterAndPageRef zeroTime ⟨[[mkPt 0]]⟩ 0 {} ptAsc 0 1).2 0
      = readArr ⟨[[mkPt 0]]⟩ 0 :=
  (C9_pure_no_mutation zeroTime ⟨[[mkPt 0]]⟩ 0 {} ptAsc 0 1).2.1 0 (by decide)

/-- C10: the merged page is never truncated to the requested page size —
its content length is exactly the sum of the per-source page content
lengths (the re-sort preserves length); with two sources each returning a
full page of 2 under pageSize 2, the merged content has 4 entries while
the reported `size` field is 2. -/
theorem C10_no_truncation :
    (∀ (sort : SortConfig) (page pageSize : Nat)
        (results : List (SourceInfo × Except String PagedResponse)),
        (mergeSettled sort page pageSize results).content.length
          = (results.map (fun pr =>
              match pr.2 with
              | .ok r => r.content.length
              | .error _ => 0)).sum)
  ∧ (mergeSettled rtDesc 0 2 twoFullSources).content.length = 4
  ∧ (mergeSettled rtDesc 0 2 twoFullSources).size = 2 := by
  refine ⟨?_, by decide, by decide⟩
  intro sort page pageSize results
  have hacc := accumulateResults_spec results
  simp [mergeSettled, hacc, jsSortBy_length, okContents_length]

end ApilogView
